import Mathlib

/-
Verification of the PLS601 QR label repository: the monotonic code
allocator (POST /api/allocate-batch), the sheet renderer
(POST /api/generate-sheet) and the calibration grid geometry
(GET /api/test-grid), as they appear in src/src/App.jsx (server part)
and src/server/server.js.

Codes are modelled as Lean strings built exactly the way the
JavaScript builds them; the labels table is modelled as the list of
its code strings (append-only), and for the row-id based allocator of
src/server/server.js as a list of (id, code) rows.
-/

namespace PlsLabels

/-- Decimal digit characters of a natural number. Fuel-based model of
the JavaScript conversion of a nonnegative integer to its decimal
string: most significant digit first, empty for 0 (the 0 case is
handled in jsString). -/
def toDecAux : Nat → Nat → List Char
  | _, 0 => []
  | 0, _ + 1 => []
  | fuel + 1, n + 1 => toDecAux fuel ((n + 1) / 10) ++ [Nat.digitChar ((n + 1) % 10)]

/-- Model of the JavaScript template conversion of the nonnegative
integer n to its decimal string. -/
def jsString (n : Nat) : String := if n = 0 then "0" else ⟨toDecAux n n⟩

/-- Model of s.padStart(w, padChar) from the source: prepend zeros up to
width w (identity when s is already at least w characters wide). -/
def padZeros (w : Nat) (s : String) : String :=
  ⟨List.replicate (w - s.data.length) '0' ++ s.data⟩

/-- String(n).padStart(5, zero) as in the allocator of src/src/App.jsx. -/
def pad5 (n : Nat) : String := padZeros 5 (jsString n)

/-- String(n).padStart(6, zero) as in the allocator of src/server/server.js. -/
def pad6 (n : Nat) : String := padZeros 6 (jsString n)

/-- Code built by the width-scoped allocator of src/src/App.jsx:
cleanPrefix followed by the 5-wide zero-padded number. -/
def mkCode (p : String) (n : Nat) : String := p ++ pad5 n

/-- Code built by the row-id allocator of src/server/server.js:
the raw prefix, a dash, and the 6-wide zero-padded number. -/
def mkDashCode (p : String) (n : Nat) : String := p ++ "-" ++ pad6 n

/-- Numeric value of a digit character. -/
def digitVal (c : Char) : Nat := c.toNat - 48

/-- Value of a list of decimal digit characters, most significant first. -/
def parseDigits (l : List Char) : Nat := l.foldl (fun a c => a * 10 + digitVal c) 0

/-- Model of the SQLite CAST(s AS INTEGER) on the nonnegative strings
arising here: parse the leading run of digits, 0 when there is none. -/
def castNum (l : List Char) : Nat := parseDigits (l.takeWhile Char.isDigit)

/-- CAST(substr(code, pl+1) AS INTEGER) from the allocator query:
the numeric value of the code with its first pl characters removed. -/
def sufNum (pl : Nat) (c : String) : Nat := castNum (c.data.drop pl)

/-- The allocator filter of src/src/App.jsx:
code GLOB cleanPrefix followed by five [0-9] wildcards, together with
length(code) = prefixLen + 5. Since the validated prefixes carry no
GLOB metacharacters, the pattern matches exactly the strings that
start with the prefix and continue with exactly five digit characters. -/
def globMatch (p : String) (c : String) : Bool :=
  c.data.length == p.data.length + 5 &&
  c.data.take p.data.length == p.data &&
  (c.data.drop p.data.length).all Char.isDigit

/-- SELECT MAX(CAST(substr(code, prefixLen+1) AS INTEGER)) over the rows
matching the GLOB and length filter; the JavaScript turns the NULL of an
empty match set into 0 via (row?.max_num ?? 0). -/
def maxSuffix (p : String) (labels : List String) : Nat :=
  ((labels.filter (fun c => globMatch p c)).map (sufNum p.data.length)).foldr max 0

/-- One character of the regular expression class [A-Z0-9]
(ASCII codepoints 65-90 and 48-57). -/
def isUpperAlnum (c : Char) : Bool :=
  (65 ≤ c.toNat && c.toNat ≤ 90) || (48 ≤ c.toNat && c.toNat ≤ 57)

/-- An ASCII letter of either case or an ASCII digit. -/
def isAsciiAlnum (c : Char) : Bool :=
  (65 ≤ c.toNat && c.toNat ≤ 90) || (97 ≤ c.toNat && c.toNat ≤ 122) ||
  (48 ≤ c.toNat && c.toNat ≤ 57)

/-- The anchored test of the allocator: one to three characters, all in
[A-Z0-9]. -/
def validPfx (s : String) : Bool :=
  decide (1 ≤ s.data.length) && decide (s.data.length ≤ 3) && s.data.all isUpperAlnum

/-- Count validation of src/src/App.jsx: an integer between 1 and 500.
The request count is modelled as an integer, so the Number.isInteger
test holds by construction. -/
def validCount (n : Int) : Bool := decide (1 ≤ n) && decide (n ≤ 500)

/-- Model of toUpperCase on the ASCII strings in play, character by
character. -/
def jsToUpper (s : String) : String := ⟨s.data.map Char.toUpper⟩

/-- Response of the allocate endpoint: a JSON code list, or an HTTP
error status with its message. -/
inductive Resp where
  | ok (codes : List String)
  | err (status : Nat) (msg : String)
deriving DecidableEq

/-- Ledger operations issued by the allocate handler, in program order. -/
inductive DbOp where
  | readMax (p : String)
  | beginTx
  | insert (code : String)
  | commit
  | rollback
deriving DecidableEq

def pfxErrMsg : String := "Prefix must be 1-3 alphanumeric characters"

def countErrMsg : String := "Count must be an integer between 1 and 500"

def exhaustErrMsg : String := "Prefix exhausted (max 99999)"

/-- The insert loop of src/src/App.jsx: starting at nextNumber = next,
perform k iterations; each iteration first checks nextNumber > 99999
(rollback, flag false) and otherwise inserts the padded code and
increments. Returns the codes inserted before any failure and whether
the loop ran to completion. -/
def insertLoop (p : String) : Nat → Nat → List String × Bool
  | _, 0 => ([], true)
  | next, k + 1 =>
    if 99999 < next then ([], false)
    else
      let r := insertLoop p (next + 1) k
      (mkCode p next :: r.1, r.2)

/-- POST /api/allocate-batch of src/src/App.jsx (the width-scoped
allocator): defaults, normalization, validation, the MAX query, BEGIN
IMMEDIATE, the insert loop, COMMIT or ROLLBACK. Returns the HTTP
response, the labels table after the call, and the trace of ledger
operations in the order the source performs them (note the MAX query
precedes BEGIN IMMEDIATE in the source). -/
def allocBatch (labels : List String) (po : Option String) (co : Option Int) :
    Resp × List String × List DbOp :=
  let rawPfx := po.getD "T"
  let cnt := co.getD 1
  let clean := jsToUpper rawPfx
  if validPfx clean = false then (Resp.err 400 pfxErrMsg, labels, [])
  else if validCount cnt = false then (Resp.err 400 countErrMsg, labels, [])
  else
    let m := maxSuffix clean labels
    let r := insertLoop clean (m + 1) cnt.toNat
    if r.2 then
      (Resp.ok r.1, labels ++ r.1,
        DbOp.readMax clean :: DbOp.beginTx :: (r.1.map DbOp.insert ++ [DbOp.commit]))
    else
      (Resp.err 400 exhaustErrMsg, labels,
        DbOp.readMax clean :: DbOp.beginTx :: (r.1.map DbOp.insert ++ [DbOp.rollback]))

/-- The labels table after one allocate call. -/
def allocStep (labels : List String) (r : Option String × Option Int) : List String :=
  (allocBatch labels r.1 r.2).2.1

/-- The labels table after a sequence of allocate calls run one after
the other, each seeing only the persisted table left by its
predecessors. -/
def runAllocs (labels : List String) (reqs : List (Option String × Option Int)) : List String :=
  reqs.foldl allocStep labels

/-- The ledger-operation trace of one allocate call. -/
def allocOps (labels : List String) (po : Option String) (co : Option Int) : List DbOp :=
  (allocBatch labels po co).2.2

/-- The ordering of a trace required by the spec: every MAX read happens
after a BEGIN already issued (the write-intent lock is held when the
current max is read). -/
def lockBeforeRead (tr : List DbOp) : Prop :=
  ∀ j p, tr.get? j = some (DbOp.readMax p) → ∃ i, i < j ∧ tr.get? i = some DbOp.beginTx

/-- Largest row id of the labels table of src/server/server.js
(0 when the table is empty). -/
def maxId (rows : List (Nat × String)) : Nat := (rows.map Prod.fst).foldr max 0

/-- Insert loop of the row-id allocator of src/server/server.js: each
iteration builds prefix-dash-pad6(nextId), inserts it (the store assigns
the next autoincrement row id), and increments the local nextId. -/
def naiveLoop (p : String) : Nat → Nat → List (Nat × String) → List String →
    List String × List (Nat × String)
  | _, 0, rows, acc => (acc, rows)
  | nid, k + 1, rows, acc =>
    let code := mkDashCode p nid
    naiveLoop p (nid + 1) k (rows ++ [(maxId rows + 1, code)]) (acc ++ [code])

/-- POST /api/allocate-batch of src/server/server.js: read the row with
the highest id (ORDER BY id DESC LIMIT 1), start numbering at that id
plus one (or 1 on an empty table), and insert count codes. -/
def allocNaive (rows : List (Nat × String)) (p : String) (count : Nat) :
    List String × List (Nat × String) :=
  let nid := if rows.isEmpty then 1 else maxId rows + 1
  naiveLoop p nid count rows []

/-- Output of the sheet renderer that the claims speak about: the number
of pages of the produced document and, for each code in order, the
0-based emitted page it was drawn on and its position on that page. -/
structure RenderOut where
  pageCount : Nat
  placements : List (Nat × Nat × String)
deriving DecidableEq

/-- The placement loop of POST /api/generate-sheet of src/src/App.jsx:
for the i-th code, globalIndex = offset + i and
pageIndex = globalIndex mod 63; a new page is added exactly when i > 0
and pageIndex = 0; the code is drawn on the current page at position
pageIndex. One page exists before the loop starts (pages = 1). -/
def sheetGo (offset : Nat) : List String → Nat → Nat → List (Nat × Nat × String) →
    Nat × List (Nat × Nat × String)
  | [], _, pages, acc => (pages, acc.reverse)
  | c :: rest, i, pages, acc =>
    let pageIndex := (offset + i) % 63
    let pages2 := if 0 < i ∧ pageIndex = 0 then pages + 1 else pages
    sheetGo offset rest (i + 1) pages2 ((pages2 - 1, pageIndex, c) :: acc)

/-- POST /api/generate-sheet of src/src/App.jsx: reject an empty code
list before anything else, otherwise run the placement loop with
offset = startIndex - 1 (startIndex defaults to 1). -/
def renderSheet (codes : List String) (siOpt : Option Nat) : Except String RenderOut :=
  if codes.isEmpty then Except.error "No codes provided"
  else
    let offset := siOpt.getD 1 - 1
    let r := sheetGo offset codes 0 1 []
    Except.ok ⟨r.1, r.2⟩

/-- Page count of a render call (0 when the call was rejected). -/
def renderPageCount (codes : List String) (siOpt : Option Nat) : Nat :=
  match renderSheet codes siOpt with
  | Except.ok o => o.pageCount
  | Except.error _ => 0

/-- Placement list of a render call (empty when the call was rejected). -/
def renderPlacements (codes : List String) (siOpt : Option Nat) : List (Nat × Nat × String) :=
  match renderSheet codes siOpt with
  | Except.ok o => o.placements
  | Except.error _ => []

/-- Closed form of the placements produced by the loop: the code at
local index i lands on emitted page (offset+i)/63 - offset/63 at
position (offset+i) mod 63. -/
def placeSpec (offset : Nat) : Nat → List String → List (Nat × Nat × String)
  | _, [] => []
  | i, c :: cs =>
    ((offset + i) / 63 - offset / 63, (offset + i) % 63, c) :: placeSpec offset (i + 1) cs

/-- The calibrated page layout parameters (margins and gaps in points);
the label size (72), column count (7), row count (9) and page height
(792) are fixed in every variant of the source. -/
structure Layout where
  marginL : ℚ
  marginT : ℚ
  gapX : ℚ
  gapY : ℚ
deriving DecidableEq

/-- The geometry computation shared by the sheet renderer and the test
grid: col = pos mod 7, row = pos div 7 (row 0 topmost),
x = marginL + col * (72 + gapX),
y = 792 - marginT - (row+1) * 72 - row * gapY. -/
def posToXY (L : Layout) (pos : Nat) : ℚ × ℚ :=
  (L.marginL + ((pos % 7 : Nat) : ℚ) * (72 + L.gapX),
   792 - L.marginT - (((pos / 7 : Nat) : ℚ) + 1) * 72 - ((pos / 7 : Nat) : ℚ) * L.gapY)

/-- GET /api/test-grid cell corners, in the drawing order of the source:
row-major double loop over 9 rows and 7 columns, each cell computing
the same x and y expressions as the sheet renderer. -/
def testGridCells (L : Layout) : List (ℚ × ℚ) :=
  (List.range 9).flatMap fun row =>
    (List.range 7).map fun col =>
      (L.marginL + (col : ℚ) * (72 + L.gapX),
       792 - L.marginT - ((row : ℚ) + 1) * 72 - (row : ℚ) * L.gapY)

/-- The calibrated constants of src/src/App.jsx (MARGIN_L = 22.68,
MARGIN_T = 35.43, GAP_X = 8.97, GAP_Y = 8.50). -/
def appLayout : Layout := ⟨2268/100, 3543/100, 897/100, 850/100⟩

theorem toDecAux_zero (fuel : Nat) : toDecAux fuel 0 = [] := by
  cases fuel <;> rfl

theorem parseDigits_nil : parseDigits [] = 0 := rfl

theorem parseDigits_append (xs : List Char) (c : Char) :
    parseDigits (xs ++ [c]) = parseDigits xs * 10 + digitVal c := by
  simp [parseDigits, List.foldl_append]

theorem digitVal_digitChar (d : Nat) (h : d < 10) : digitVal (Nat.digitChar d) = d := by
  interval_cases d <;> decide

theorem isDigit_digitChar (d : Nat) (h : d < 10) : (Nat.digitChar d).isDigit = true := by
  interval_cases d <;> decide

theorem parse_toDecAux : ∀ fuel n, 0 < n → n ≤ fuel → parseDigits (toDecAux fuel n) = n := by
  intro fuel
  induction fuel with
  | zero => intro n h1 h2; omega
  | succ f ih =>
    intro n h1 h2
    match n, h1 with
    | n + 1, _ =>
      rw [show toDecAux (f + 1) (n + 1)
            = toDecAux f ((n + 1) / 10) ++ [Nat.digitChar ((n + 1) % 10)] from rfl]
      rw [parseDigits_append, digitVal_digitChar _ (Nat.mod_lt _ (by omega))]
      by_cases h : (n + 1) / 10 = 0
      · rw [h, toDecAux_zero, parseDigits_nil]
        omega
      · rw [ih ((n + 1) / 10) (Nat.pos_of_ne_zero h) (by omega)]
        omega

theorem digits_toDecAux : ∀ fuel n, (toDecAux fuel n).all Char.isDigit = true := by
  intro fuel
  induction fuel with
  | zero => intro n; cases n <;> rfl
  | succ f ih =>
    intro n
    cases n with
    | zero => rfl
    | succ n =>
      rw [show toDecAux (f + 1) (n + 1)
            = toDecAux f ((n + 1) / 10) ++ [Nat.digitChar ((n + 1) % 10)] from rfl]
      rw [List.all_append, ih]
      simp [isDigit_digitChar _ (Nat.mod_lt _ (by omega))]

theorem length_toDecAux : ∀ fuel n k, n ≤ fuel → n < 10 ^ k → (toDecAux fuel n).length ≤ k := by
  intro fuel
  induction fuel with
  | zero =>
    intro n k h1 h2
    cases n with
    | zero => simp [toDecAux_zero]
    | succ n => omega
  | succ f ih =>
    intro n k h1 h2
    cases n with
    | zero => simp [toDecAux_zero]
    | succ n =>
      rw [show toDecAux (f + 1) (n + 1)
            = toDecAux f ((n + 1) / 10) ++ [Nat.digitChar ((n + 1) % 10)] from rfl]
      rw [List.length_append]
      have hk : k ≠ 0 := by
        intro hk0
        rw [hk0] at h2
        simp at h2
      obtain ⟨k, rfl⟩ := Nat.exists_eq_succ_of_ne_zero hk
      have hlt : (n + 1) / 10 < 10 ^ k := by
        rw [Nat.div_lt_iff_lt_mul (by norm_num)]
        calc n + 1 < 10 ^ (k + 1) := h2
          _ = 10 ^ k * 10 := by ring
      have := ih ((n + 1) / 10) k (by omega) hlt
      simp only [List.length_singleton]
      omega

theorem parse_jsString (n : Nat) : parseDigits (jsString n).data = n := by
  by_cases h : n = 0
  · subst h; decide
  · rw [jsString, if_neg h]
    exact parse_toDecAux n n (Nat.pos_of_ne_zero h) le_rfl

theorem digits_jsString (n : Nat) : (jsString n).data.all Char.isDigit = true := by
  by_cases h : n = 0
  · subst h; decide
  · rw [jsString, if_neg h]
    exact digits_toDecAux n n

theorem length_jsString_le (n : Nat) (h : n ≤ 99999) : (jsString n).data.length ≤ 5 := by
  by_cases h0 : n = 0
  · subst h0; decide
  · rw [jsString, if_neg h0]
    exact length_toDecAux n n 5 le_rfl (by omega)

theorem foldl_parse_replicate (k : Nat) (ds : List Char) :
    parseDigits (List.replicate k '0' ++ ds) = parseDigits ds := by
  induction k with
  | zero => rfl
  | succ k ih =>
    rw [List.replicate_succ, List.cons_append]
    show List.foldl (fun a c => a * 10 + digitVal c) (0 * 10 + digitVal '0')
        (List.replicate k '0' ++ ds) = _
    have : (0 : Nat) * 10 + digitVal '0' = 0 := by decide
    rw [this]
    exact ih

theorem parse_pad5 (n : Nat) : parseDigits (pad5 n).data = n := by
  rw [show (pad5 n).data
        = List.replicate (5 - (jsString n).data.length) '0' ++ (jsString n).data from rfl]
  rw [foldl_parse_replicate]
  exact parse_jsString n

theorem digits_pad5 (n : Nat) : (pad5 n).data.all Char.isDigit = true := by
  rw [show (pad5 n).data
        = List.replicate (5 - (jsString n).data.length) '0' ++ (jsString n).data from rfl]
  rw [List.all_append, digits_jsString, Bool.and_true]
  rw [List.all_eq_true]
  intro c hc
  rw [List.eq_of_mem_replicate hc]
  decide

theorem length_pad5 (n : Nat) (h : n ≤ 99999) : (pad5 n).data.length = 5 := by
  have := length_jsString_le n h
  rw [show (pad5 n).data
        = List.replicate (5 - (jsString n).data.length) '0' ++ (jsString n).data from rfl]
  rw [List.length_append, List.length_replicate]
  omega

theorem data_mkCode (p : String) (n : Nat) : (mkCode p n).data = p.data ++ (pad5 n).data := by
  cases p
  rfl

theorem takeWhile_all_eq {q : Char → Bool} :
    ∀ l : List Char, l.all q = true → l.takeWhile q = l := by
  intro l hl
  induction l with
  | nil => rfl
  | cons c cs ih =>
    rw [List.all_cons, Bool.and_eq_true] at hl
    rw [List.takeWhile_cons, if_pos hl.1, ih hl.2]

theorem sufNum_mkCode (p : String) (n : Nat) : sufNum p.data.length (mkCode p n) = n := by
  rw [sufNum, data_mkCode, List.drop_left, castNum, takeWhile_all_eq _ (digits_pad5 n)]
  exact parse_pad5 n

theorem mkCode_inj (p : String) (a b : Nat) (h : mkCode p a = mkCode p b) : a = b := by
  have := sufNum_mkCode p a
  rw [h, sufNum_mkCode] at this
  omega

theorem globMatch_mkCode (p : String) (n : Nat) (h : n ≤ 99999) :
    globMatch p (mkCode p n) = true := by
  rw [globMatch, data_mkCode]
  simp [List.take_left, List.drop_left, length_pad5 n h, digits_pad5 n]

theorem le_foldr_max (l : List Nat) (a : Nat) (h : a ∈ l) : a ≤ l.foldr max 0 := by
  induction l with
  | nil => cases h
  | cons x xs ih =>
    rw [List.foldr_cons]
    rcases List.mem_cons.1 h with rfl | hm
    · exact Nat.le_max_left _ _
    · exact le_trans (ih hm) (Nat.le_max_right _ _)

theorem foldr_max_append (l1 l2 : List Nat) :
    (l1 ++ l2).foldr max 0 = max (l1.foldr max 0) (l2.foldr max 0) := by
  induction l1 with
  | nil => simp
  | cons x xs ih => simp [ih, Nat.max_assoc]

theorem mem_le_maxSuffix (p : String) (labels : List String) (c : String)
    (hm : c ∈ labels) (hg : globMatch p c = true) :
    sufNum p.data.length c ≤ maxSuffix p labels := by
  apply le_foldr_max
  exact List.mem_map_of_mem _ (List.mem_filter.2 ⟨hm, hg⟩)

theorem maxSuffix_append (p : String) (l1 l2 : List String) :
    maxSuffix p (l1 ++ l2) = max (maxSuffix p l1) (maxSuffix p l2) := by
  rw [maxSuffix, List.filter_append, List.map_append, foldr_max_append]
  rfl

theorem insertLoop_ok (p : String) :
    ∀ k next, (insertLoop p next k).2 = true →
      (insertLoop p next k).1 = (List.range k).map (fun i => mkCode p (next + i)) ∧
      ∀ i, i < k → next + i ≤ 99999 := by
  intro k
  induction k with
  | zero => intro next _; exact ⟨rfl, fun i hi => absurd hi (by omega)⟩
  | succ k ih =>
    intro next h
    rw [insertLoop] at h ⊢
    by_cases hb : 99999 < next
    · rw [if_pos hb] at h
      cases h
    · rw [if_neg hb] at h ⊢
      obtain ⟨h1, h2⟩ := ih (next + 1) h
      constructor
      · rw [List.range_succ_eq_map, List.map_cons, List.map_map]
        simp only [h1, Nat.add_zero]
        congr 1
        apply List.map_congr_left
        intro i _
        simp only [Function.comp_apply]
        congr 1
        omega
      · intro i hi
        cases i with
        | zero => omega
        | succ i => have := h2 i (by omega); omega

theorem insertLoop_fail (p : String) :
    ∀ k next i, i < k → 99999 < next + i → (insertLoop p next k).2 = false := by
  intro k
  induction k with
  | zero => intro next i hi _; omega
  | succ k ih =>
    intro next i hi hgt
    rw [insertLoop]
    by_cases hb : 99999 < next
    · rw [if_pos hb]
    · rw [if_neg hb]
      cases i with
      | zero => omega
      | succ i => exact ih (next + 1) i (by omega) (by omega)

/-- The normalized prefix of a request. -/
def cleanOf (po : Option String) : String := jsToUpper (po.getD "T")

theorem alloc_ok_spec (labels : List String) (po : Option String) (co : Option Int)
    (cs : List String) (h : (allocBatch labels po co).1 = Resp.ok cs) :
    ∃ n, 0 < n ∧
      cs = (List.range n).map (fun i => mkCode (cleanOf po) (maxSuffix (cleanOf po) labels + 1 + i)) ∧
      (allocBatch labels po co).2.1 = labels ++ cs ∧
      maxSuffix (cleanOf po) labels + n ≤ 99999 := by
  simp only [allocBatch] at h ⊢
  by_cases hp : validPfx (jsToUpper (po.getD "T")) = false
  · rw [if_pos hp] at h; cases h
  · rw [if_neg hp] at h ⊢
    by_cases hc : validCount (co.getD 1) = false
    · rw [if_pos hc] at h; cases h
    · rw [if_neg hc] at h ⊢
      by_cases hok : (insertLoop (jsToUpper (po.getD "T"))
          (maxSuffix (jsToUpper (po.getD "T")) labels + 1) (co.getD 1).toNat).2 = true
      · rw [if_pos hok] at h ⊢
        obtain ⟨h1, h2⟩ := insertLoop_ok _ _ _ hok
        have hcs : (insertLoop (jsToUpper (po.getD "T"))
            (maxSuffix (jsToUpper (po.getD "T")) labels + 1) (co.getD 1).toNat).1 = cs := by
          have h2 : Resp.ok (insertLoop (jsToUpper (po.getD "T"))
              (maxSuffix (jsToUpper (po.getD "T")) labels + 1) (co.getD 1).toNat).1
              = Resp.ok cs := h
          exact Resp.ok.inj h2
        have hvc : validCount (co.getD 1) = true := by
          cases hvc0 : validCount (co.getD 1)
          · exact absurd hvc0 hc
          · rfl
        rw [validCount, Bool.and_eq_true, decide_eq_true_eq, decide_eq_true_eq] at hvc
        have hn : 0 < (co.getD 1).toNat := by omega
        refine ⟨(co.getD 1).toNat, hn, ?_, ?_, ?_⟩
        · rw [← hcs, h1, cleanOf]
        · show labels ++ _ = labels ++ cs
          rw [hcs]
        · have := h2 ((co.getD 1).toNat - 1) (by omega)
          rw [cleanOf]
          omega
      · rw [if_neg hok] at h
        simp at h

theorem alloc_state (labels : List String) (po : Option String) (co : Option Int) :
    (allocBatch labels po co).2.1 = labels ∨
    ∃ cs, (allocBatch labels po co).2.1 = labels ++ cs := by
  simp only [allocBatch]
  by_cases hp : validPfx (jsToUpper (po.getD "T")) = false
  · rw [if_pos hp]; exact Or.inl rfl
  · rw [if_neg hp]
    by_cases hc : validCount (co.getD 1) = false
    · rw [if_pos hc]; exact Or.inl rfl
    · rw [if_neg hc]
      by_cases hok : (insertLoop (jsToUpper (po.getD "T"))
          (maxSuffix (jsToUpper (po.getD "T")) labels + 1) (co.getD 1).toNat).2 = true
      · rw [if_pos hok]; exact Or.inr ⟨_, rfl⟩
      · rw [Bool.not_eq_true] at hok
        rw [hok]
        exact Or.inl rfl

theorem maxSuffix_le_allocStep (p : String) (labels : List String)
    (r : Option String × Option Int) :
    maxSuffix p labels ≤ maxSuffix p (allocStep labels r) := by
  rw [allocStep]
  rcases alloc_state labels r.1 r.2 with h | ⟨cs, h⟩
  · rw [h]
  · rw [h, maxSuffix_append]
    exact Nat.le_max_left _ _

theorem maxSuffix_le_runAllocs (p : String) (labels : List String)
    (reqs : List (Option String × Option Int)) :
    maxSuffix p labels ≤ maxSuffix p (runAllocs labels reqs) := by
  induction reqs generalizing labels with
  | nil => exact le_rfl
  | cons r rs ih =>
    rw [runAllocs, List.foldl_cons]
    exact le_trans (maxSuffix_le_allocStep p labels r) (ih (allocStep labels r))

theorem alloc_err_state (labels : List String) (po : Option String) (co : Option Int)
    (s : Nat) (m : String) (h : (allocBatch labels po co).1 = Resp.err s m) :
    (allocBatch labels po co).2.1 = labels := by
  simp only [allocBatch] at h ⊢
  by_cases hp : validPfx (jsToUpper (po.getD "T")) = false
  · rw [if_pos hp]
  · rw [if_neg hp] at h ⊢
    by_cases hc : validCount (co.getD 1) = false
    · rw [if_pos hc]
    · rw [if_neg hc] at h ⊢
      by_cases hok : (insertLoop (jsToUpper (po.getD "T"))
          (maxSuffix (jsToUpper (po.getD "T")) labels + 1) (co.getD 1).toNat).2 = true
      · rw [if_pos hok] at h
        simp at h
      · rw [if_neg hok]

theorem allocStep_nodup (labels : List String) (r : Option String × Option Int)
    (hnd : labels.Nodup) : (allocStep labels r).Nodup := by
  rw [allocStep]
  cases hr : (allocBatch labels r.1 r.2).1 with
  | err s m => rw [alloc_err_state labels r.1 r.2 s m hr]; exact hnd
  | ok cs =>
    obtain ⟨n, hn, hcs, hstate, hbound⟩ := alloc_ok_spec labels r.1 r.2 cs hr
    rw [hstate]
    refine List.Nodup.append hnd ?_ ?_
    · rw [hcs]
      refine List.Nodup.map_on ?_ (List.nodup_range n)
      intro x hx y hy hxy
      have := mkCode_inj _ _ _ hxy
      omega
    · intro a ha hacs
      rw [hcs] at hacs
      obtain ⟨i, hi, rfl⟩ := List.mem_map.1 hacs
      rw [List.mem_range] at hi
      have hglob := globMatch_mkCode (cleanOf r.1)
        (maxSuffix (cleanOf r.1) labels + 1 + i) (by omega)
      have := mem_le_maxSuffix (cleanOf r.1) labels _ ha hglob
      rw [sufNum_mkCode] at this
      omega

theorem runAllocs_nodup (reqs : List (Option String × Option Int)) :
    ∀ labels : List String, labels.Nodup → (runAllocs labels reqs).Nodup := by
  induction reqs with
  | nil => intro labels h; exact h
  | cons r rs ih =>
    intro labels h
    rw [runAllocs, List.foldl_cons]
    exact ih (allocStep labels r) (allocStep_nodup labels r h)

/-- C1: for every sequence of allocate calls, with any prefixes and any
counts, executed sequentially against the ledger starting from the
empty labels table, no two Label records ever share the same code
string (the code list of the table after any such sequence has no
duplicate, and every intermediate table is itself the result of a
shorter sequence). -/
theorem alloc_codes_unique (reqs : List (Option String × Option Int)) :
    (runAllocs [] reqs).Nodup :=
  runAllocs_nodup reqs [] List.nodup_nil

/-- C2: for a fixed prefix, the numeric suffixes returned by successive
successful allocate calls are strictly increasing and never reused:
whenever one successful call returns cs1 and, after any further
requests touching only the persisted table, a later successful call
with the same normalized prefix returns cs2, every suffix of cs2
strictly exceeds every suffix of cs1. The calls see nothing but the
persisted labels table, so the property is insensitive to process
restarts between calls. -/
theorem alloc_suffixes_increase
    (L0 : List String) (po1 : Option String) (co1 : Option Int)
    (mid : List (Option String × Option Int)) (po2 : Option String) (co2 : Option Int)
    (p : String) (cs1 cs2 : List String)
    (hp1 : cleanOf po1 = p) (hp2 : cleanOf po2 = p)
    (h1 : (allocBatch L0 po1 co1).1 = Resp.ok cs1)
    (h2 : (allocBatch (runAllocs (allocBatch L0 po1 co1).2.1 mid) po2 co2).1 = Resp.ok cs2) :
    ∀ c1 ∈ cs1, ∀ c2 ∈ cs2, sufNum p.data.length c1 < sufNum p.data.length c2 := by
  subst hp1
  obtain ⟨n1, hn1, hcs1, hst1, hb1⟩ := alloc_ok_spec _ _ _ _ h1
  obtain ⟨n2, hn2, hcs2, hst2, hb2⟩ := alloc_ok_spec _ _ _ _ h2
  rw [hp2] at hcs2 hb2
  intro c1 hc1 c2 hc2
  rw [hcs1] at hc1
  obtain ⟨i, hi, rfl⟩ := List.mem_map.1 hc1
  rw [List.mem_range] at hi
  rw [hcs2] at hc2
  obtain ⟨j, hj, rfl⟩ := List.mem_map.1 hc2
  rw [List.mem_range] at hj
  rw [sufNum_mkCode, sufNum_mkCode]
  have hmem : mkCode (cleanOf po1) (maxSuffix (cleanOf po1) L0 + n1)
      ∈ (allocBatch L0 po1 co1).2.1 := by
    rw [hst1, hcs1]
    refine List.mem_append_right _ (List.mem_map.2 ⟨n1 - 1, List.mem_range.2 (by omega), ?_⟩)
    congr 1
    omega
  have hglob := globMatch_mkCode (cleanOf po1) (maxSuffix (cleanOf po1) L0 + n1) (by omega)
  have hle1 := mem_le_maxSuffix (cleanOf po1) ((allocBatch L0 po1 co1).2.1) _ hmem hglob
  rw [sufNum_mkCode] at hle1
  have hle2 := maxSuffix_le_runAllocs (cleanOf po1) ((allocBatch L0 po1 co1).2.1) mid
  omega

theorem alloc_suffixes_increase_witness :
    cleanOf (some "T") = "T" ∧ cleanOf (some "t") = "T" ∧
    (allocBatch [] (some "T") (some 2)).1 = Resp.ok ["T00001", "T00002"] ∧
    (allocBatch (runAllocs (allocBatch [] (some "T") (some 2)).2.1 [(some "U", some 1)])
        (some "t") (some 1)).1 = Resp.ok ["T00003"] ∧
    (∀ c1 ∈ ["T00001", "T00002"], ∀ c2 ∈ ["T00003"],
      sufNum "T".data.length c1 < sufNum "T".data.length c2) :=
  ⟨by decide, by decide, by decide, by decide,
   alloc_suffixes_increase [] (some "T") (some 2) [(some "U", some 1)] (some "t") (some 1)
     "T" ["T00001", "T00002"] ["T00003"] (by decide) (by decide) (by decide) (by decide)⟩

/-- C3: on an empty ledger, allocating prefix T with count 3 and then
prefix T with count 2 returns the two claimed code batches. The exact
claimed strings (dash format, width 6) are produced by the allocator of
src/server/server.js; the width-scoped allocator of src/src/App.jsx
produces the same numbering in its own fixed format (no dash, width 5),
the per-deployment scheme the claim allows. -/
theorem roundtrip_two_allocations :
    (allocNaive [] "T" 3).1 = ["T-000001", "T-000002", "T-000003"] ∧
    (allocNaive (allocNaive [] "T" 3).2 "T" 2).1 = ["T-000004", "T-000005"] ∧
    (allocBatch [] (some "T") (some 3)).1 = Resp.ok ["T00001", "T00002", "T00003"] ∧
    (allocBatch (allocBatch [] (some "T") (some 3)).2.1 (some "T") (some 2)).1
      = Resp.ok ["T00004", "T00005"] :=
  ⟨by decide, by decide, by decide, by decide⟩

/-- C4: an allocate call that passes validation but whose batch would
step past 99999 for the fixed width fails with the exhaustion error and
leaves the labels table exactly as it was: zero records committed. -/
theorem alloc_exhaustion_atomic (labels : List String) (po : Option String) (co : Option Int)
    (hp : validPfx (cleanOf po) = true)
    (hc : validCount (co.getD 1) = true)
    (hex : 99999 < maxSuffix (cleanOf po) labels + (co.getD 1).toNat) :
    (allocBatch labels po co).1 = Resp.err 400 exhaustErrMsg ∧
    (allocBatch labels po co).2.1 = labels := by
  rw [cleanOf] at hp hex
  have hc2 := hc
  rw [validCount, Bool.and_eq_true, decide_eq_true_eq, decide_eq_true_eq] at hc2
  simp only [allocBatch]
  rw [if_neg (by rw [hp]; intro he; cases he)]
  rw [if_neg (by rw [hc]; intro he; cases he)]
  have hfail : (insertLoop (jsToUpper (po.getD "T"))
      (maxSuffix (jsToUpper (po.getD "T")) labels + 1) (co.getD 1).toNat).2 = false :=
    insertLoop_fail _ _ _ ((co.getD 1).toNat - 1) (by omega) (by omega)
  rw [if_neg (by rw [hfail]; intro he; cases he)]
  exact ⟨rfl, rfl⟩

theorem alloc_exhaustion_atomic_witness :
    validPfx (cleanOf (some "T")) = true ∧
    validCount ((some (1 : Int)).getD 1) = true ∧
    99999 < maxSuffix (cleanOf (some "T")) ["T99999"] + ((some (1 : Int)).getD 1).toNat ∧
    ((allocBatch ["T99999"] (some "T") (some 1)).1 = Resp.err 400 exhaustErrMsg ∧
      (allocBatch ["T99999"] (some "T") (some 1)).2.1 = ["T99999"]) :=
  ⟨by decide, by decide, by decide,
   alloc_exhaustion_atomic ["T99999"] (some "T") (some 1) (by decide) (by decide) (by decide)⟩

/-- C5 counterexample: on the concrete call allocate(prefix T, count 1)
against the empty table, the emitted ledger-operation trace reads the
current max at position 0 and only then issues BEGIN IMMEDIATE at
position 1, so the claimed discipline (the write-intent lock is
acquired before the current max is read, and the max is never read
outside the transaction) fails on the code. -/
theorem lock_before_read_fails :
    ¬ lockBeforeRead (allocOps [] (some "T") (some 1)) := by
  intro hlock
  obtain ⟨i, hi, _⟩ := hlock 0 "T" (by decide)
  omega

/-- C5 (amended): in every allocate call the current max is read first,
outside the transaction, and BEGIN IMMEDIATE is issued immediately
afterwards; only the inserts and the final COMMIT or ROLLBACK happen
inside the transaction. A call rejected by validation issues no ledger
operation at all. -/
theorem read_then_lock_shape (labels : List String) (po : Option String) (co : Option Int) :
    allocOps labels po co = [] ∨
    ∃ (cs : List String) (term : DbOp), (term = DbOp.commit ∨ term = DbOp.rollback) ∧
      allocOps labels po co =
        DbOp.readMax (cleanOf po) :: DbOp.beginTx :: (cs.map DbOp.insert ++ [term]) := by
  rw [allocOps]
  simp only [allocBatch]
  by_cases hp : validPfx (jsToUpper (po.getD "T")) = false
  · rw [if_pos hp]; exact Or.inl rfl
  · rw [if_neg hp]
    by_cases hc : validCount (co.getD 1) = false
    · rw [if_pos hc]; exact Or.inl rfl
    · rw [if_neg hc]
      by_cases hok : (insertLoop (jsToUpper (po.getD "T"))
          (maxSuffix (jsToUpper (po.getD "T")) labels + 1) (co.getD 1).toNat).2 = true
      · rw [if_pos hok]
        exact Or.inr ⟨(insertLoop (jsToUpper (po.getD "T"))
          (maxSuffix (jsToUpper (po.getD "T")) labels + 1) (co.getD 1).toNat).1,
          DbOp.commit, Or.inl rfl, rfl⟩
      · rw [if_neg hok]
        exact Or.inr ⟨(insertLoop (jsToUpper (po.getD "T"))
          (maxSuffix (jsToUpper (po.getD "T")) labels + 1) (co.getD 1).toNat).1,
          DbOp.rollback, Or.inr rfl, rfl⟩

/-- C6: every validation error (a prefix failing the 1-3 alphanumeric
pattern, a count outside 1..500, or an empty code list given to the
sheet renderer) is rejected before any side effect: the allocator
returns a 400 with a nonempty reason, the labels table is untouched and
no ledger operation at all is issued; the renderer rejects the empty
list with its reason before producing any document. -/
theorem validation_before_side_effects :
    (∀ (labels : List String) (po : Option String) (co : Option Int),
      validPfx (cleanOf po) = false ∨ validCount (co.getD 1) = false →
      ∃ msg, msg ≠ "" ∧ allocBatch labels po co = (Resp.err 400 msg, labels, [])) ∧
    (∀ siOpt : Option Nat, renderSheet [] siOpt = Except.error "No codes provided") := by
  constructor
  · intro labels po co hbad
    simp only [allocBatch]
    by_cases hp : validPfx (jsToUpper (po.getD "T")) = false
    · rw [if_pos hp]
      exact ⟨pfxErrMsg, by decide, rfl⟩
    · rcases hbad with hbp | hbc
      · rw [cleanOf] at hbp
        exact absurd hbp hp
      · rw [if_neg hp, if_pos hbc]
        exact ⟨countErrMsg, by decide, rfl⟩
  · intro siOpt
    rfl

theorem validation_before_side_effects_witness :
    (validPfx (cleanOf (some "ABCD")) = false ∨ validCount ((some (1 : Int)).getD 1) = false) ∧
    (∃ msg, msg ≠ "" ∧
      allocBatch ["T00001"] (some "ABCD") (some 1) = (Resp.err 400 msg, ["T00001"], [])) :=
  ⟨Or.inl (by decide),
   validation_before_side_effects.1 ["T00001"] (some "ABCD") (some 1) (Or.inl (by decide))⟩

theorem sheetGo_spec (offset : Nat) :
    ∀ (rest : List String) (i pages : Nat) (acc : List (Nat × Nat × String)),
      0 < i → pages = 1 + (offset + i - 1) / 63 - offset / 63 →
      sheetGo offset rest i pages acc =
        ((if rest.isEmpty then pages
          else 1 + (offset + i + rest.length - 1) / 63 - offset / 63),
         acc.reverse ++ placeSpec offset i rest) := by
  intro rest
  induction rest with
  | nil =>
    intro i pages acc hi hp
    simp [sheetGo, placeSpec]
  | cons c cs ih =>
    intro i pages acc hi hp
    simp only [sheetGo]
    have hpages2 : (if 0 < i ∧ (offset + i) % 63 = 0 then pages + 1 else pages)
        = 1 + (offset + i) / 63 - offset / 63 := by
      by_cases hm : (offset + i) % 63 = 0
      · rw [if_pos ⟨hi, hm⟩]; omega
      · rw [if_neg (fun hand => hm hand.2)]; omega
    rw [hpages2]
    rw [ih (i + 1) (1 + (offset + i) / 63 - offset / 63)
        ((1 + (offset + i) / 63 - offset / 63 - 1, (offset + i) % 63, c) :: acc)
        (by omega) (by omega)]
    have e1 : 1 + (offset + i) / 63 - offset / 63 - 1 = (offset + i) / 63 - offset / 63 := by
      omega
    rw [e1, List.reverse_cons, List.append_assoc]
    have e2 : (if (c :: cs).isEmpty then pages
        else 1 + (offset + i + (c :: cs).length - 1) / 63 - offset / 63)
        = 1 + (offset + i + cs.length) / 63 - offset / 63 := by
      rw [if_neg (by simp)]
      simp only [List.length_cons]
      omega
    rw [e2]
    have e3 : (if cs.isEmpty then 1 + (offset + i) / 63 - offset / 63
        else 1 + (offset + (i + 1) + cs.length - 1) / 63 - offset / 63)
        = 1 + (offset + i + cs.length) / 63 - offset / 63 := by
      cases cs with
      | nil => simp
      | cons d ds =>
        rw [if_neg (by simp)]
        simp only [List.length_cons]
        omega
    rw [e3]
    rfl

theorem sheetGo_eval (offset : Nat) (codes : List String) (h : codes ≠ []) :
    sheetGo offset codes 0 1 [] =
      (1 + (offset + codes.length - 1) / 63 - offset / 63, placeSpec offset 0 codes) := by
  cases codes with
  | nil => exact absurd rfl h
  | cons c cs =>
    simp only [sheetGo]
    rw [if_neg (fun hand => absurd hand.1 (lt_irrefl 0))]
    rw [sheetGo_spec offset cs 1 1 [(1 - 1, (offset + 0) % 63, c)] (by omega) (by omega)]
    have e1 : placeSpec offset 0 (c :: cs)
        = ((offset + 0) / 63 - offset / 63, (offset + 0) % 63, c) :: placeSpec offset 1 cs := rfl
    rw [e1]
    have e2 : (offset + 0) / 63 - offset / 63 = 1 - 1 := by omega
    rw [← e2]
    have e3 : (if cs.isEmpty then 1
        else 1 + (offset + 1 + cs.length - 1) / 63 - offset / 63)
        = 1 + (offset + (c :: cs).length - 1) / 63 - offset / 63 := by
      cases cs with
      | nil => simp
      | cons d ds =>
        rw [if_neg (by simp)]
        simp only [List.length_cons]
        omega
    rw [e3]
    rfl

theorem placeSpec_get (offset : Nat) :
    ∀ (codes : List String) (j i : Nat),
      (placeSpec offset j codes).get? i
        = (codes.get? i).map
            (fun c => ((offset + j + i) / 63 - offset / 63, (offset + j + i) % 63, c)) := by
  intro codes
  induction codes with
  | nil => intro j i; simp [placeSpec]
  | cons c cs ih =>
    intro j i
    cases i with
    | zero => simp [placeSpec]
    | succ i =>
      rw [show placeSpec offset j (c :: cs)
            = ((offset + j) / 63 - offset / 63, (offset + j) % 63, c) :: placeSpec offset (j + 1) cs
          from rfl]
      rw [List.get?_cons_succ, List.get?_cons_succ, ih (j + 1) i]
      have e : offset + (j + 1) + i = offset + j + (i + 1) := by omega
      rw [e]

/-- C7 counterexample: rendering the two codes A, B at start position 63
produces a 2-page document, while the claimed formula
ceil(total codes / 63) gives 1, so the claimed page count fails for
start positions other than 1. -/
theorem render_pageCount_not_ceil :
    renderPageCount ["A", "B"] (some 63) ≠ (List.length ["A", "B"] + 62) / 63 := by
  decide

/-- C7 (amended): for every non-empty code list and 1-based start
position, the page count of the rendered document equals
ceil(((startPosition - 1) mod 63 + total codes) / 63); when the start
position is 1 this is exactly the claimed ceil(total codes / 63). -/
theorem render_pageCount_formula (codes : List String) (si : Nat)
    (h : codes ≠ []) (hsi : 1 ≤ si) :
    renderPageCount codes (some si) = ((si - 1) % 63 + codes.length + 62) / 63 := by
  rw [renderPageCount, renderSheet]
  rw [if_neg (by rw [List.isEmpty_iff]; exact h)]
  have hlen : 0 < codes.length := List.length_pos.2 h
  show (sheetGo ((some si).getD 1 - 1) codes 0 1 []).1 = _
  rw [show (some si).getD 1 = si from rfl]
  rw [sheetGo_eval (si - 1) codes h]
  omega

theorem render_pageCount_formula_witness :
    List.replicate 127 "X" ≠ [] ∧ 1 ≤ 1 ∧
    renderPageCount (List.replicate 127 "X") (some 1)
      = ((1 - 1) % 63 + (List.replicate 127 "X").length + 62) / 63 :=
  ⟨by decide, by decide, render_pageCount_formula (List.replicate 127 "X") 1 (by decide) (by decide)⟩

/-- C8 counterexample: rendering the single code A at start position 64
places it on emitted page 0 (the first and only page of the document),
while the claimed formula floor((offset + i) / 63) = floor(63 / 63)
gives page 1, so the claimed page index fails for start positions past
one sheet. -/
theorem render_placement_not_global_page :
    renderPlacements ["A"] (some 64) = [(0, 0, "A")] ∧ (64 - 1 + 0) / 63 = 1 ∧ (0 : Nat) ≠ 1 :=
  ⟨by decide, by decide, by decide⟩

/-- C8 (amended): for every render request with 1-based start position,
the code at local index i is placed on emitted page
((startPosition - 1) mod 63 + i) div 63 at on-page position
(startPosition - 1 + i) mod 63; for start positions at most 63 the page
equals the claimed floor((offset + i) / 63), and the position formula
is exactly the claimed one. -/
theorem render_placement_formula (codes : List String) (si i : Nat) (c : String)
    (hsi : 1 ≤ si) (hc : codes.get? i = some c) :
    (renderPlacements codes (some si)).get? i
      = some (((si - 1) % 63 + i) / 63, (si - 1 + i) % 63, c) := by
  have hne : codes ≠ [] := by
    intro he
    rw [he] at hc
    cases hc
  rw [renderPlacements, renderSheet]
  rw [if_neg (by rw [List.isEmpty_iff]; exact hne)]
  show (sheetGo ((some si).getD 1 - 1) codes 0 1 []).2.get? i = _
  rw [show (some si).getD 1 = si from rfl]
  rw [sheetGo_eval (si - 1) codes hne]
  rw [placeSpec_get (si - 1) codes 0 i, hc]
  rw [show Option.map
        (fun c => ((si - 1 + 0 + i) / 63 - (si - 1) / 63, (si - 1 + 0 + i) % 63, c)) (some c)
      = some ((si - 1 + 0 + i) / 63 - (si - 1) / 63, (si - 1 + 0 + i) % 63, c) from rfl]
  have e1 : (si - 1 + 0 + i) / 63 - (si - 1) / 63 = ((si - 1) % 63 + i) / 63 := by omega
  have e2 : (si - 1 + 0 + i) % 63 = (si - 1 + i) % 63 := by omega
  rw [e1, e2]

theorem render_placement_formula_witness :
    1 ≤ 2 ∧ ["A", "B"].get? 1 = some "B" ∧
    (renderPlacements ["A", "B"] (some 2)).get? 1
      = some (((2 - 1) % 63 + 1) / 63, (2 - 1 + 1) % 63, "B") :=
  ⟨by decide, by decide, render_placement_formula ["A", "B"] 2 1 "B" (by decide) (by decide)⟩

theorem testGridCells_eq_map (L : Layout) :
    testGridCells L = (List.range 63).map (posToXY L) := rfl

/-- C9: for every layout configuration and on-page position p below 63,
the geometry mapping is exactly col = p mod 7, row = p div 7 (row 0
topmost), x = marginL + col * (72 + gapX),
y = 792 - marginT - (row + 1) * 72 - row * gapY, and the calibration
grid draws its cell number p at exactly that point; being a pure
function of the position and the configuration, the same position
always yields the same point. -/
theorem geometry_formula (L : Layout) (p : Nat) (hp : p < 63) :
    posToXY L p = (L.marginL + ((p % 7 : Nat) : ℚ) * (72 + L.gapX),
      792 - L.marginT - (((p / 7 : Nat) : ℚ) + 1) * 72 - ((p / 7 : Nat) : ℚ) * L.gapY) ∧
    (testGridCells L).get? p = some (posToXY L p) := by
  refine ⟨rfl, ?_⟩
  rw [testGridCells_eq_map, List.get?_map, List.get?_range hp]
  rfl

theorem geometry_formula_witness :
    8 < 63 ∧
    (posToXY appLayout 8 = (appLayout.marginL + ((8 % 7 : Nat) : ℚ) * (72 + appLayout.gapX),
        792 - appLayout.marginT - (((8 / 7 : Nat) : ℚ) + 1) * 72
          - ((8 / 7 : Nat) : ℚ) * appLayout.gapY) ∧
      (testGridCells appLayout).get? 8 = some (posToXY appLayout 8)) :=
  ⟨by decide, geometry_formula appLayout 8 (by decide)⟩

theorem toNat_ofNat_valid (n : Nat) (h : n.isValidChar) : (Char.ofNat n).toNat = n := by
  rw [Char.ofNat, dif_pos h]
  rfl

theorem isUpperAlnum_toUpper (c : Char) (h : isAsciiAlnum c = true) :
    isUpperAlnum (Char.toUpper c) = true := by
  rw [isAsciiAlnum] at h
  simp only [Bool.or_eq_true, Bool.and_eq_true, decide_eq_true_eq] at h
  simp only [Char.toUpper]
  by_cases hl : Char.toNat c ≥ 97 ∧ Char.toNat c ≤ 122
  · rw [if_pos hl]
    have hv : (Char.toNat c - 32).isValidChar := Or.inl (by omega)
    rw [isUpperAlnum, toNat_ofNat_valid _ hv]
    simp only [Bool.or_eq_true, Bool.and_eq_true, decide_eq_true_eq]
    omega
  · rw [if_neg hl]
    rw [isUpperAlnum]
    simp only [Bool.or_eq_true, Bool.and_eq_true, decide_eq_true_eq]
    omega

theorem validPfx_toUpper (s : String) (h1 : s.data ≠ []) (h2 : s.data.length ≤ 3)
    (h3 : s.data.all isAsciiAlnum = true) : validPfx (jsToUpper s) = true := by
  rw [validPfx]
  rw [show (jsToUpper s).data = s.data.map Char.toUpper from rfl]
  rw [List.length_map]
  simp only [Bool.and_eq_true, decide_eq_true_eq]
  have hpos : 0 < s.data.length := List.length_pos.2 h1
  refine ⟨⟨by omega, h2⟩, ?_⟩
  rw [List.all_map, List.all_eq_true]
  rw [List.all_eq_true] at h3
  intro c hc
  exact isUpperAlnum_toUpper c (h3 c hc)

/-- C10: the allocator normalizes and defaults its inputs before
validation: a request omitting the prefix behaves exactly like one with
prefix T, a request omitting the count behaves exactly like one with
count 1, any 1-3 character prefix of ASCII letters (either case) or
digits passes the prefix validation after uppercasing, and every code
a successful call returns begins with the uppercased prefix. -/
theorem alloc_normalizes_inputs :
    (∀ (labels : List String) (po : Option String) (co : Option Int),
      allocBatch labels none co = allocBatch labels (some "T") co ∧
      allocBatch labels po none = allocBatch labels po (some 1)) ∧
    (∀ (labels : List String) (s : String) (co : Option Int),
      s.data ≠ [] → s.data.length ≤ 3 → s.data.all isAsciiAlnum = true →
      validPfx (jsToUpper s) = true ∧
      (∀ cs, (allocBatch labels (some s) co).1 = Resp.ok cs →
        ∀ code ∈ cs, ∃ rest, code = jsToUpper s ++ rest)) := by
  constructor
  · intro labels po co
    exact ⟨rfl, rfl⟩
  · intro labels s co h1 h2 h3
    refine ⟨validPfx_toUpper s h1 h2 h3, ?_⟩
    intro cs hok code hmem
    obtain ⟨n, hn, hcs, hstate, hbound⟩ := alloc_ok_spec labels (some s) co cs hok
    rw [hcs] at hmem
    obtain ⟨i, hi, rfl⟩ := List.mem_map.1 hmem
    exact ⟨pad5 (maxSuffix (cleanOf (some s)) labels + 1 + i), rfl⟩

theorem alloc_normalizes_inputs_witness :
    ("ab1".data ≠ [] ∧ "ab1".data.length ≤ 3 ∧ "ab1".data.all isAsciiAlnum = true) ∧
    (validPfx (jsToUpper "ab1") = true ∧
      (∀ cs, (allocBatch [] (some "ab1") (some 1)).1 = Resp.ok cs →
        ∀ code ∈ cs, ∃ rest, code = jsToUpper "ab1" ++ rest)) :=
  ⟨⟨by decide, by decide, by decide⟩,
   alloc_normalizes_inputs.2 [] "ab1" (some 1) (by decide) (by decide) (by decide)⟩

end PlsLabels
